import Mathlib

/-
Verification development for the federated face-verification experiment
(`face_verification/fedaws_verification.py`).

The visible source is the experiment script: argument parsing, the
`fit_config`/`eval_config` closures, the client/model construction and the
`FedAwS` strategy instantiation.  The strategy body itself
(`server_app.strategy.fedaws.FedAwS`), the round coordinator
(`server_app.wandb_server.RayTuneServer`) and the client selector
(`flwr.server.client_manager.SimpleClientManager`) are not among the visible
sources; definitions for those components are modelled from the spec and say
so in their doc comments.  Machine arithmetic is modelled over ℚ (and over ℝ
for the spreadout geometry); non-finite IEEE values are modelled by an
explicit value type `FVal`.
-/

namespace FedAwSVerification

/-! ### Backbone parameters and sample-count-weighted aggregation -/

/-- A parameter list: an ordered sequence of numeric arrays
(spec §3 GlobalModel), values over ℚ. -/
abbrev Params := List (List ℚ)

/-- Element-wise addition of two arrays. -/
def vAdd (u v : List ℚ) : List ℚ := List.zipWith (· + ·) u v

/-- Element-wise addition of two parameter lists. -/
def pAdd (p q : Params) : Params := List.zipWith vAdd p q

/-- Scaling of one array by a scalar. -/
def vScale (c : ℚ) (v : List ℚ) : List ℚ := v.map (fun x => c * x)

/-- Scaling of a parameter list by a scalar. -/
def pScale (c : ℚ) (p : Params) : Params := p.map (vScale c)

/-- The all-zero parameter list with the same shape as `p`. -/
def zeroLike (p : Params) : Params := p.map (fun v => v.map (fun _ => (0 : ℚ)))

/-- The shape of a parameter list: the lengths of its arrays. -/
def shape (p : Params) : List ℕ := p.map List.length

/-- The entry of parameter list `p` at array `k`, position `j`
(0 outside the bounds). -/
def entry (p : Params) (k j : ℕ) : ℚ := (((p[k]?).getD [])[j]?).getD 0

/-- Modelled from the spec: the backbone weighted average of the FedAwS
strategy (`aggregate_fit` step 2, spec §4.3: `w_new = Σ(n_i × w_i) / Σ(n_i)`
element-wise per array); the class `server_app.strategy.fedaws.FedAwS` is not
among the visible sources.  Each input pair is (parameters, sample count). -/
def aggregate (rs : List (Params × ℕ)) : Params :=
  match rs with
  | [] => []
  | (w₀, _) :: _ =>
    pScale (1 / ((rs.map Prod.snd).sum : ℚ))
      ((rs.map (fun r => pScale (r.2 : ℚ) r.1)).foldr pAdd (zeroLike w₀))

/-- A client's result for one round (spec §3 ClientResult, restricted to the
fields the aggregation reads): parameters, sample count, OK/FAILED status. -/
structure ClientResult where
  params : Params
  numExamples : ℕ
  statusOk : Bool
  deriving DecidableEq

/-- The OK results, as (parameters, sample count) pairs. -/
def okFitResults (rs : List ClientResult) : List (Params × ℕ) :=
  (rs.filter (fun r => r.statusOk)).map (fun r => (r.params, r.numExamples))

/-- Modelled from the spec: `aggregate_fit` restricted to the backbone
parameters — sample-count-weighted averaging across all OK results
(spec §4.3 steps 1–2); the FedAwS strategy body is not among the visible
sources. -/
def aggregate_fit (rs : List ClientResult) : Params :=
  aggregate (okFitResults rs)

/-! ### Round-level model handling -/

/-- Round-level failure (spec §7). -/
inductive RoundError where
  | insufficientResults
  deriving DecidableEq

/-- Number of OK results among the collected client results. -/
def okCount (rs : List ClientResult) : ℕ := (rs.filter (fun r => r.statusOk)).length

/-- Modelled from the spec: the round coordinator's COLLECTING/AGGREGATING
decision (spec §4.2) — a round proceeds only when at least `minFit` OK
results arrived, else it fails with `InsufficientResults`; the round
coordinator (`server_app.wandb_server.RayTuneServer` and the framework server
loop) is not among the visible sources. -/
def runFitRound (minFit : ℕ) (rs : List ClientResult) : Except RoundError Params :=
  if okCount rs < minFit then Except.error RoundError.insufficientResults
  else Except.ok (aggregate_fit rs)

/-- Modelled from the spec: the GlobalModel after a round — the strategy's
output atomically replaces it on success, and on failure no update is
committed, so the previous model `g` is kept (spec §4.2). -/
def roundGlobalModel (minFit : ℕ) (g : Params) (rs : List ClientResult) : Params :=
  match runFitRound minFit rs with
  | Except.error _ => g
  | Except.ok g' => g'

/-! ### IEEE-style values and the aggregation numerical check -/

/-- A floating-point-style value: finite (modelled over ℚ), NaN, or ±Inf. -/
inductive FVal where
  | fin (q : ℚ)
  | nan
  | inf
  | neginf
  deriving DecidableEq

/-- Finiteness of an `FVal`. -/
def FVal.isFinite : FVal → Bool
  | FVal.fin _ => true
  | _ => false

/-- Addition with NaN/Inf propagation. -/
def fAdd : FVal → FVal → FVal
  | FVal.nan, _ => FVal.nan
  | _, FVal.nan => FVal.nan
  | FVal.fin a, FVal.fin b => FVal.fin (a + b)
  | FVal.fin _, FVal.inf => FVal.inf
  | FVal.inf, FVal.fin _ => FVal.inf
  | FVal.fin _, FVal.neginf => FVal.neginf
  | FVal.neginf, FVal.fin _ => FVal.neginf
  | FVal.inf, FVal.inf => FVal.inf
  | FVal.neginf, FVal.neginf => FVal.neginf
  | FVal.inf, FVal.neginf => FVal.nan
  | FVal.neginf, FVal.inf => FVal.nan

/-- Multiplication with NaN/Inf propagation. -/
def fMul : FVal → FVal → FVal
  | FVal.nan, _ => FVal.nan
  | _, FVal.nan => FVal.nan
  | FVal.fin a, FVal.fin b => FVal.fin (a * b)
  | FVal.fin a, FVal.inf =>
    if a = 0 then FVal.nan else if 0 < a then FVal.inf else FVal.neginf
  | FVal.inf, FVal.fin b =>
    if b = 0 then FVal.nan else if 0 < b then FVal.inf else FVal.neginf
  | FVal.fin a, FVal.neginf =>
    if a = 0 then FVal.nan else if 0 < a then FVal.neginf else FVal.inf
  | FVal.neginf, FVal.fin b =>
    if b = 0 then FVal.nan else if 0 < b then FVal.neginf else FVal.inf
  | FVal.inf, FVal.inf => FVal.inf
  | FVal.neginf, FVal.neginf => FVal.inf
  | FVal.inf, FVal.neginf => FVal.neginf
  | FVal.neginf, FVal.inf => FVal.neginf

/-- Division with NaN/Inf production (division by zero produces NaN or ±Inf,
as IEEE arithmetic does). -/
def fDiv : FVal → FVal → FVal
  | FVal.nan, _ => FVal.nan
  | _, FVal.nan => FVal.nan
  | FVal.fin a, FVal.fin b =>
    if b = 0 then (if a = 0 then FVal.nan else if 0 < a then FVal.inf else FVal.neginf)
    else FVal.fin (a / b)
  | FVal.fin _, FVal.inf => FVal.fin 0
  | FVal.fin _, FVal.neginf => FVal.fin 0
  | FVal.inf, FVal.fin b => if 0 ≤ b then FVal.inf else FVal.neginf
  | FVal.neginf, FVal.fin b => if 0 ≤ b then FVal.neginf else FVal.inf
  | _, _ => FVal.nan

/-- Parameter lists over floating-point-style values. -/
abbrev FParams := List (List FVal)

/-- Scaling of an `FVal` array. -/
def fvScale (c : FVal) (v : List FVal) : List FVal := v.map (fun x => fMul c x)

/-- Scaling of an `FVal` parameter list. -/
def fpScale (c : FVal) (p : FParams) : FParams := p.map (fvScale c)

/-- Element-wise addition of `FVal` arrays. -/
def fvAdd (u v : List FVal) : List FVal := List.zipWith fAdd u v

/-- Element-wise addition of `FVal` parameter lists. -/
def fpAdd (p q : FParams) : FParams := List.zipWith fvAdd p q

/-- The all-(finite-)zero `FVal` parameter list with the shape of `p`. -/
def fzeroLike (p : FParams) : FParams := p.map (fun v => v.map (fun _ => FVal.fin 0))

/-- Modelled from the spec: the weighted average `w_new = Σ(n_i × w_i) / Σ(n_i)`
computed in floating-point-style arithmetic, where a zero sample total or
non-finite inputs produce NaN/Inf values; the FedAwS strategy body is not
among the visible sources. -/
def faggregate (rs : List (FParams × ℕ)) : FParams :=
  match rs with
  | [] => []
  | (w₀, _) :: _ =>
    ((rs.map (fun r => fpScale (FVal.fin (r.2 : ℚ)) r.1)).foldr fpAdd (fzeroLike w₀)).map
      (fun v => v.map (fun x => fDiv x (FVal.fin ((rs.map Prod.snd).sum : ℚ))))

/-- Fatal aggregation error (spec §7). -/
inductive AggError where
  | aggregationNumericalError
  deriving DecidableEq

/-- Whether every entry of an `FVal` parameter list is finite. -/
def allFinite (p : FParams) : Bool := p.all (fun v => v.all FVal.isFinite)

/-- Negation of a floating-point-style value. -/
def fNeg : FVal → FVal
  | FVal.fin q => FVal.fin (-q)
  | FVal.nan => FVal.nan
  | FVal.inf => FVal.neginf
  | FVal.neginf => FVal.inf

/-- Subtraction of floating-point-style values. -/
def fSub (x y : FVal) : FVal := fAdd x (fNeg y)

/-- Element-wise subtraction of `FVal` arrays. -/
def fvSub (u v : List FVal) : List FVal := List.zipWith fSub u v

/-- Square root with IEEE non-finiteness behaviour: NaN for negative or NaN
inputs, +Inf for +Inf, and finite values for finite non-negative inputs.
ℚ cannot represent irrational roots, so `Rat.sqrt` stands in for the finite
value; the aggregation check (and every theorem below) depends only on the
finiteness behaviour, which is exact. -/
def fSqrt : FVal → FVal
  | FVal.fin q => if q < 0 then FVal.nan else FVal.fin (Rat.sqrt q)
  | FVal.nan => FVal.nan
  | FVal.inf => FVal.inf
  | FVal.neginf => FVal.nan

/-- Dot product of two `FVal` rows. -/
def fdotp (u v : List FVal) : FVal :=
  (List.zipWith fMul u v).foldr fAdd (FVal.fin 0)

/-- Row renormalization in floating-point-style arithmetic: each entry is
divided by the root of the squared norm; renormalizing a zero row yields NaN
(0/0), as IEEE division does. -/
def fnormalizeRow (u : List FVal) : List FVal :=
  u.map (fun x => fDiv x (fSqrt (fdotp u u)))

/-- Float comparison `nu < s` for a similarity value (NaN compares false,
+Inf compares true). -/
def fGtNu (nu : ℚ) : FVal → Bool
  | FVal.fin q => decide (nu < q)
  | FVal.inf => true
  | FVal.neginf => false
  | FVal.nan => false

/-- Modelled from the spec: the spreadout regularization step (spec §4.3
steps 4–5) computed in floating-point-style arithmetic over the embedding
table (one `FVal` row per identity) — each row with at least one over-similar
partner takes the accumulated repulsive step and is renormalized, other rows
are untouched; the FedAwS strategy body is not among the visible sources. -/
def fspreadoutStep (nu eta lam : ℚ) (T : List (List FVal)) : List (List FVal) :=
  (List.range T.length).map (fun i =>
    let row := T.getD i []
    let partners := (List.range T.length).filter
      (fun j => j != i && fGtNu nu (fdotp row (T.getD j [])))
    if partners.isEmpty then row
    else
      fnormalizeRow (partners.foldr
        (fun j acc =>
          fvSub acc (fvScale (fMul (FVal.fin (eta * lam)) (fdotp row (T.getD j [])))
            (T.getD j [])))
        row))

/-- Modelled from the spec: the numerical guard of `aggregate_fit` over both
stages of the round's computation — the weighted backbone average and the
spreadout step on the embedding table; any NaN/Inf produced by either must
raise `AggregationNumericalError` rather than being written into the
GlobalModel (spec §7); the strategy body is not among the visible sources. -/
def checkedAggregateFit (nu eta lam : ℚ) (rs : List (FParams × ℕ))
    (T : List (List FVal)) : Except AggError (FParams × List (List FVal)) :=
  if allFinite (faggregate rs) && allFinite (fspreadoutStep nu eta lam T)
  then Except.ok (faggregate rs, fspreadoutStep nu eta lam T)
  else Except.error AggError.aggregationNumericalError

/-- The GlobalModel — backbone `g` plus embedding table `gT` — after the
checked aggregation: replaced on success, kept unchanged on
`AggregationNumericalError`. -/
def checkedGlobalModelFit (nu eta lam : ℚ) (g : FParams) (gT : List (List FVal))
    (rs : List (FParams × ℕ)) (T : List (List FVal)) :
    FParams × List (List FVal) :=
  match checkedAggregateFit nu eta lam rs T with
  | Except.error _ => (g, gT)
  | Except.ok w => w

/-! ### The spreadout regularization step (over ℝ) -/

/-- Dot product of two rows (spec §4.3: `s_ij = embedding_i · embedding_j`). -/
def dotp {d : ℕ} (u v : Fin d → ℝ) : ℝ := ∑ i, u i * v i

/-- Euclidean norm of a row. -/
noncomputable def nrm {d : ℕ} (u : Fin d → ℝ) : ℝ := Real.sqrt (dotp u u)

/-- Renormalization of a row to unit length (spec §4.3 step 5). -/
noncomputable def normalizeRow {d : ℕ} (u : Fin d → ℝ) : Fin d → ℝ :=
  fun k => u k / nrm u

/-- Row `j` is over-similar to row `i`: a distinct row whose similarity with
`i` exceeds the separation threshold `nu` (spec §4.3 step 4). -/
def overSim (nu : ℝ) {n d : ℕ} (E : Fin n → Fin d → ℝ) (i j : Fin n) : Prop :=
  j ≠ i ∧ nu < dotp (E i) (E j)

open Classical in
/-- Modelled from the spec: the accumulated repulsive gradient on row `i` —
`eta × lam × s_ij × embedding_j` summed over every over-similar partner `j`
(spec §4.3 step 4); the FedAwS strategy body is not among the visible
sources. -/
noncomputable def spreadGrad (nu eta lam : ℝ) {n d : ℕ} (E : Fin n → Fin d → ℝ)
    (i : Fin n) : Fin d → ℝ :=
  fun k => ∑ j, if overSim nu E i j then eta * lam * dotp (E i) (E j) * E j k else 0

open Classical in
/-- Modelled from the spec: one spreadout regularization step on the whole
EmbeddingTable — each row with at least one over-similar partner takes the
repulsive step `embedding_i ← embedding_i − eta × lam × s_ij × embedding_j`
(accumulated over its partners) and is then renormalized to unit length;
rows with no over-similar partner are untouched (spec §4.3 steps 4–5). -/
noncomputable def spreadoutStep (nu eta lam : ℝ) {n d : ℕ}
    (E : Fin n → Fin d → ℝ) : Fin n → Fin d → ℝ :=
  fun i =>
    if ∃ j, overSim nu E i j then
      normalizeRow (fun k => E i k - spreadGrad nu eta lam E i k)
    else E i

/-! ### Client selection and the experiment configuration -/

/-- Python `int()` applied to a rational: truncation toward zero. -/
def ratTrunc (q : ℚ) : ℤ := if 0 ≤ q then ⌊q⌋ else ⌈q⌉

/-- Models `int(args.num_clients * args.fraction_fit)`, the
`min_fit_clients` argument of the `FedAwS` call
(fedaws_verification.py line 139). -/
def min_fit_clients (num_clients : ℤ) (fraction_fit : ℚ) : ℤ :=
  ratTrunc ((num_clients : ℚ) * fraction_fit)

/-- Selection failure (spec §4.1/§7). -/
inductive SelectionError where
  | insufficientClients
  deriving DecidableEq

/-- Modelled from the spec: the Client Selector (spec §4.1) — returns a
without-replacement sample of `max(min_clients, ceil(fraction × population))`
client ids and fails with `InsufficientClients` when the population is below
the configured minimum; the client manager
(`flwr.server.client_manager.SimpleClientManager`) is not among the visible
sources.  The sampling policy is represented deterministically by taking a
prefix of the population. -/
def selectClients (population : List ℕ) (fraction : ℚ) (minClients : ℕ) :
    Except SelectionError (List ℕ) :=
  if population.length < minClients then Except.error SelectionError.insufficientClients
  else Except.ok (population.take (max minClients (⌈fraction * (population.length : ℚ)⌉.toNat)))

/-- The parsed command-line configuration, one field per argument of the
script's argument parsing block (fedaws_verification.py lines 28–65). -/
structure Args where
  dataset : String
  target : String
  model : String
  pretrained : Option String
  num_rounds : ℤ
  num_clients : ℤ
  fraction_fit : ℚ
  local_epochs : ℤ
  batch_size : ℤ
  criterion : String
  lr : ℚ
  weight_decay : ℚ
  save_model : ℤ
  seed : ℤ
  deriving DecidableEq

/-- The option names registered on the script's argument parsing block
(fedaws_verification.py lines 28–65). -/
def parserArgNames : List String :=
  ["--dataset", "--target", "--model", "--pretrained", "--num_rounds",
   "--num_clients", "--fraction_fit", "--local_epochs", "--batch_size",
   "--criterion", "--lr", "--weight_decay", "--save_model", "--seed"]

/-- The scalar arguments passed to the `FedAwS` strategy constructor. -/
structure FedAwSInit where
  fraction_fit : ℚ
  fraction_evaluate : ℚ
  min_fit : ℤ
  min_evaluate : ℤ
  min_available : ℤ
  nu : ℚ
  eta : ℚ
  lam : ℚ
  deriving DecidableEq

/-- Models the `FedAwS(...)` constructor call in `main`
(fedaws_verification.py lines 136–150): `nu=0.9`, `eta=0.01`, `lam=10` are
written as literals there. -/
def strategyInit (a : Args) : FedAwSInit :=
  { fraction_fit := a.fraction_fit
    fraction_evaluate := 1
    min_fit := min_fit_clients a.num_clients a.fraction_fit
    min_evaluate := a.num_clients
    min_available := a.num_clients
    nu := 9 / 10
    eta := 1 / 100
    lam := 10 }

/-- A Python scalar as it appears in a config dict: int, float or str. -/
inductive PyScalar where
  | int (n : ℤ)
  | float (q : ℚ)
  | str (s : String)
  deriving DecidableEq

/-- Models the `fit_config` closure (fedaws_verification.py lines 101–109):
the dict of scalar hyperparameters returned for round `server_round`. -/
def fit_config (a : Args) (server_round : ℕ) : List (String × PyScalar) :=
  [("local_epochs", PyScalar.int a.local_epochs),
   ("batch_size", PyScalar.int a.batch_size),
   ("lr", PyScalar.float a.lr),
   ("weight_decay", PyScalar.float a.weight_decay),
   ("criterion_name", PyScalar.str a.criterion)]

/-- The dataset configuration returned by `configure_dataset`, as the script
reads it: an input specification and the number of output dimensions. -/
structure DatasetConfig (σ : Type) where
  input_spec : σ
  out_dims : ℕ

/-- The client-side config dict built in `main`
(fedaws_verification.py lines 91–98): note the literal `"out_dims": 1` and
`"pretrained": "None"`. -/
structure ClientConfig (σ : Type) where
  dataset_name : String
  input_spec : σ
  out_dims : ℕ
  target_name : String
  model_name : String
  pretrained : String

/-- Models the `client_config` dict literal (fedaws_verification.py
lines 91–98). -/
def client_config (a : Args) {σ : Type} (dc : DatasetConfig σ) : ClientConfig σ :=
  { dataset_name := a.dataset
    input_spec := dc.input_spec
    out_dims := 1
    target_name := a.target
    model_name := a.model
    pretrained := "None" }

/-- A constructed client: id plus the config it was given. -/
structure FlowerFaceRayClient (σ : Type) where
  cid : String
  config : ClientConfig σ

/-- Models `client_fn` (fedaws_verification.py lines 133–134): builds the
client from the shared `client_config`. -/
def client_fn (a : Args) {σ : Type} (dc : DatasetConfig σ) (cid : String) :
    FlowerFaceRayClient σ :=
  { cid := cid, config := client_config a dc }

/-- The arguments of the `load_arcface_model` call in `main`
(fedaws_verification.py lines 82–87). -/
structure ArcFaceModelCall (σ : Type) where
  name : String
  input_spec : σ
  out_dims : ℕ
  pretrained : Option String

/-- Models the `load_arcface_model(...)` call (fedaws_verification.py
lines 82–87): it receives `args.pretrained` and the dataset's `out_dims`. -/
def load_arcface_model_call (a : Args) {σ : Type} (dc : DatasetConfig σ) :
    ArcFaceModelCall σ :=
  { name := a.model
    input_spec := dc.input_spec
    out_dims := dc.out_dims
    pretrained := a.pretrained }

/-! ### Concrete inputs used by witnesses and counterexamples -/

/-- Two OK results with equal-shaped parameters. -/
def rsW : List ClientResult :=
  [⟨[[1, 2]], 2, true⟩, ⟨[[4, 2]], 1, true⟩]

/-- The two OK results of `rsW`, in the opposite order. -/
def rsWswap : List ClientResult :=
  [⟨[[4, 2]], 1, true⟩, ⟨[[1, 2]], 2, true⟩]

/-- Three OK results reporting identical parameters. -/
def rsIdW : List ClientResult :=
  [⟨[[3], [5, 7]], 2, true⟩, ⟨[[3], [5, 7]], 1, true⟩, ⟨[[3], [5, 7]], 4, true⟩]

/-- Collected results of which only two are OK. -/
def rsC4 : List ClientResult :=
  [⟨[[1]], 5, true⟩, ⟨[[2]], 5, true⟩, ⟨[[3]], 5, false⟩]

/-- One fit result with a finite, well-behaved weighted average. -/
def frsFinW : List (FParams × ℕ) := [([[FVal.fin 1]], 1)]

/-- An embedding table whose two identical unit rows make the spreadout step
cancel each row exactly, so renormalization divides zero by zero (NaN). -/
def TW : List (List FVal) :=
  [[FVal.fin 1, FVal.fin 0], [FVal.fin 1, FVal.fin 0]]

/-- An orthonormal two-row embedding table (all pairwise similarities 0). -/
noncomputable def Eid : Fin 2 → Fin 2 → ℝ := ![![1, 0], ![0, 1]]

/-- A two-row unit-norm embedding table with similarity 3/5. -/
noncomputable def Ew : Fin 2 → Fin 2 → ℝ := ![![1, 0], ![3 / 5, 4 / 5]]

/-- A two-row table whose two distinct rows hold the same unit vector
(similarity 1). -/
noncomputable def Ecx : Fin 2 → Fin 2 → ℝ := ![![1, 0], ![1, 0]]

/-- A three-row unit-norm table: rows 0 and 1 have similarity 3/5, and
row 2 is a further over-similar partner of row 0 (similarity 4/5) but not of
row 1 (similarity 0). -/
noncomputable def E3 : Fin 3 → Fin 2 → ℝ := ![![3 / 5, 4 / 5], ![1, 0], ![0, 1]]

/-- A concrete parsed configuration. -/
def argsA : Args :=
  { dataset := "CIFAR10", target := "small", model := "ResNet18",
    pretrained := none, num_rounds := 5, num_clients := 4, fraction_fit := 1,
    local_epochs := 5, batch_size := 10, criterion := "CCL", lr := 1 / 100,
    weight_decay := 0, save_model := 0, seed := 1234 }

/-- A parsed configuration differing from `argsA` in every field the parser
exposes. -/
def argsB : Args :=
  { dataset := "CelebA", target := "large", model := "GNResNet18",
    pretrained := some "IMAGENET1K_V1", num_rounds := 7, num_clients := 8,
    fraction_fit := 1 / 2, local_epochs := 3, batch_size := 32,
    criterion := "CCL", lr := 1 / 10, weight_decay := 1 / 1000,
    save_model := 1, seed := 42 }

/-! ### Helper lemmas: entries and shapes of parameter lists -/

theorem entry_nil (k j : ℕ) : entry ([] : Params) k j = 0 := by
  simp [entry]

theorem entry_cons_zero (v : List ℚ) (p : Params) (j : ℕ) :
    entry (v :: p) 0 j = (v[j]?).getD 0 := by
  simp [entry]

theorem entry_cons_succ (v : List ℚ) (p : Params) (k j : ℕ) :
    entry (v :: p) (k + 1) j = entry p k j := by
  simp [entry]

theorem entry_pScale (c : ℚ) (p : Params) (k j : ℕ) :
    entry (pScale c p) k j = c * entry p k j := by
  unfold entry pScale
  rw [List.getElem?_map]
  cases p[k]? with
  | none => simp
  | some v =>
    unfold vScale
    simp only [Option.map_some', Option.getD_some]
    rw [List.getElem?_map]
    cases v[j]? <;> simp

theorem entry_zeroLike (p : Params) (k j : ℕ) : entry (zeroLike p) k j = 0 := by
  unfold entry zeroLike
  rw [List.getElem?_map]
  cases p[k]? with
  | none => simp
  | some v =>
    simp only [Option.map_some', Option.getD_some]
    rw [List.getElem?_map]
    cases v[j]? <;> simp

theorem vAdd_entry (u v : List ℚ) (h : u.length = v.length) (j : ℕ) :
    ((vAdd u v)[j]?).getD 0 = (u[j]?).getD 0 + (v[j]?).getD 0 := by
  induction u generalizing v j with
  | nil =>
    cases v with
    | nil => simp [vAdd]
    | cons b vs => simp at h
  | cons a us ih =>
    cases v with
    | nil => simp at h
    | cons b vs =>
      cases j with
      | zero => simp [vAdd]
      | succ j =>
        simp only [vAdd, List.zipWith_cons_cons, List.getElem?_cons_succ]
        exact ih vs (by simpa using h) j

theorem entry_pAdd (p q : Params) (h : shape p = shape q) (k j : ℕ) :
    entry (pAdd p q) k j = entry p k j + entry q k j := by
  induction p generalizing q k with
  | nil =>
    cases q with
    | nil => simp [pAdd, entry]
    | cons w qs => simp [shape] at h
  | cons v ps ih =>
    cases q with
    | nil => simp [shape] at h
    | cons w qs =>
      simp only [shape, List.map_cons, List.cons.injEq] at h
      cases k with
      | zero =>
        simp only [pAdd, List.zipWith_cons_cons, entry_cons_zero]
        exact vAdd_entry v w h.1 j
      | succ k =>
        simp only [pAdd, List.zipWith_cons_cons, entry_cons_succ]
        exact ih qs h.2 k

theorem shape_pScale (c : ℚ) (p : Params) : shape (pScale c p) = shape p := by
  unfold shape pScale
  rw [List.map_map]
  exact List.map_congr_left fun v _ => by simp [vScale, Function.comp]

theorem shape_zeroLike (p : Params) : shape (zeroLike p) = shape p := by
  unfold shape zeroLike
  rw [List.map_map]
  exact List.map_congr_left fun v _ => by simp [Function.comp]

theorem shape_pAdd (p q : Params) (h : shape p = shape q) :
    shape (pAdd p q) = shape p := by
  induction p generalizing q with
  | nil => cases q <;> simp [pAdd, shape]
  | cons v ps ih =>
    cases q with
    | nil => simp [shape] at h
    | cons w qs =>
      simp only [shape, List.map_cons, List.cons.injEq] at h
      simp only [pAdd, List.zipWith_cons_cons, shape, List.map_cons, List.cons.injEq]
      refine ⟨?_, ih qs h.2⟩
      simp [vAdd, List.length_zipWith, h.1]

theorem shape_foldr (l : List Params) (z : Params) (h : ∀ p ∈ l, shape p = shape z) :
    shape (l.foldr pAdd z) = shape z := by
  induction l with
  | nil => rfl
  | cons p l ih =>
    have hz := ih fun q hq => h q (List.mem_cons_of_mem _ hq)
    have hp := h p (List.mem_cons_self _ _)
    calc shape (pAdd p (l.foldr pAdd z)) = shape p :=
          shape_pAdd _ _ (hp.trans hz.symm)
      _ = shape z := hp

theorem entry_foldr (l : List Params) (z : Params) (h : ∀ p ∈ l, shape p = shape z)
    (k j : ℕ) :
    entry (l.foldr pAdd z) k j = (l.map (fun p => entry p k j)).sum + entry z k j := by
  induction l with
  | nil => simp
  | cons p l ih =>
    have hz : shape (l.foldr pAdd z) = shape z :=
      shape_foldr l z fun q hq => h q (List.mem_cons_of_mem _ hq)
    have hp : shape p = shape (l.foldr pAdd z) :=
      (h p (List.mem_cons_self _ _)).trans hz.symm
    rw [List.foldr_cons, entry_pAdd _ _ hp,
      ih fun q hq => h q (List.mem_cons_of_mem _ hq)]
    simp only [List.map_cons, List.sum_cons]
    ring

theorem entry_aggregate (rs : List (Params × ℕ))
    (hsh : ∀ r ∈ rs, ∀ u ∈ rs, shape r.1 = shape u.1) (k j : ℕ) :
    entry (aggregate rs) k j
      = (rs.map (fun r => (r.2 : ℚ) * entry r.1 k j)).sum
          / ((rs.map Prod.snd).sum : ℚ) := by
  cases rs with
  | nil => simp [aggregate, entry]
  | cons r rest =>
    obtain ⟨w₀, n₀⟩ := r
    have hshapes : ∀ p ∈ ((w₀, n₀) :: rest).map (fun r => pScale (r.2 : ℚ) r.1),
        shape p = shape (zeroLike w₀) := by
      intro p hp
      obtain ⟨u, hu, rfl⟩ := List.mem_map.1 hp
      rw [shape_pScale, shape_zeroLike]
      exact hsh u hu (w₀, n₀) (List.mem_cons_self _ _)
    show entry (pScale (1 / ((((w₀, n₀) :: rest).map Prod.snd).sum : ℚ))
        ((((w₀, n₀) :: rest).map (fun r => pScale (r.2 : ℚ) r.1)).foldr pAdd
          (zeroLike w₀))) k j = _
    rw [entry_pScale, entry_foldr _ _ hshapes, entry_zeroLike, add_zero,
      List.map_map]
    rw [show ((w₀, n₀) :: rest).map ((fun p => entry p k j) ∘ fun r => pScale (r.2 : ℚ) r.1)
        = ((w₀, n₀) :: rest).map (fun r => (r.2 : ℚ) * entry r.1 k j) from
      List.map_congr_left fun u _ => by simp [Function.comp, entry_pScale]]
    rw [one_div_mul_eq_div]

theorem row_ext (u v : List ℚ) (hlen : u.length = v.length)
    (h : ∀ j : ℕ, (u[j]?).getD 0 = (v[j]?).getD 0) : u = v := by
  apply List.ext_getElem?
  intro n
  by_cases hn : n < u.length
  · have hu := List.getElem?_eq_getElem hn
    have hv := List.getElem?_eq_getElem (hlen ▸ hn)
    have hval := h n
    rw [hu, hv] at hval ⊢
    simpa using hval
  · rw [List.getElem?_eq_none (le_of_not_lt hn),
      List.getElem?_eq_none (le_of_not_lt (hlen ▸ hn))]

theorem params_ext (p q : Params) (hsh : shape p = shape q)
    (he : ∀ k j, entry p k j = entry q k j) : p = q := by
  induction p generalizing q with
  | nil =>
    cases q with
    | nil => rfl
    | cons w qs => simp [shape] at hsh
  | cons v ps ih =>
    cases q with
    | nil => simp [shape] at hsh
    | cons w qs =>
      simp only [shape, List.map_cons, List.cons.injEq] at hsh
      have hrow : v = w :=
        row_ext v w hsh.1 fun j => by simpa [entry_cons_zero] using he 0 j
      have htail : ps = qs :=
        ih qs hsh.2 fun k j => by simpa [entry_cons_succ] using he (k + 1) j
      rw [hrow, htail]

theorem shape_aggregate (w₀ : Params) (n₀ : ℕ) (rest : List (Params × ℕ))
    (hsh : ∀ r ∈ (w₀, n₀) :: rest, shape r.1 = shape w₀) :
    shape (aggregate ((w₀, n₀) :: rest)) = shape w₀ := by
  have hshapes : ∀ p ∈ ((w₀, n₀) :: rest).map (fun r => pScale (r.2 : ℚ) r.1),
      shape p = shape (zeroLike w₀) := by
    intro p hp
    obtain ⟨u, hu, rfl⟩ := List.mem_map.1 hp
    rw [shape_pScale, shape_zeroLike]
    exact hsh u hu
  show shape (pScale (1 / ((((w₀, n₀) :: rest).map Prod.snd).sum : ℚ))
      ((((w₀, n₀) :: rest).map (fun r => pScale (r.2 : ℚ) r.1)).foldr pAdd
        (zeroLike w₀))) = shape w₀
  rw [shape_pScale, shape_foldr _ _ hshapes, shape_zeroLike]

theorem okFitResults_of_all_ok (rs : List ClientResult)
    (hok : ∀ r ∈ rs, r.statusOk = true) :
    okFitResults rs = rs.map fun r => (r.params, r.numExamples) := by
  rw [okFitResults, List.filter_eq_self.mpr hok]

/-- Claim C1: for every non-empty list of OK fit results (with the run's
fixed array shapes and a positive sample total), `aggregate_fit` computes
every backbone entry as the sample-count-weighted average
`Σ(n_i × w_i) / Σ(n_i)`, and if every OK client reports identical
parameters the aggregate equals those parameters unchanged. -/
theorem aggregate_fit_weighted_average (rs : List ClientResult)
    (hok : ∀ r ∈ rs, r.statusOk = true)
    (hne : rs ≠ [])
    (hsh : ∀ r ∈ rs, ∀ u ∈ rs, shape r.params = shape u.params)
    (hpos : 0 < (rs.map fun r => r.numExamples).sum) :
    (∀ k j, entry (aggregate_fit rs) k j
        = (rs.map fun r => (r.numExamples : ℚ) * entry r.params k j).sum
            / (((rs.map fun r => r.numExamples).sum : ℕ) : ℚ))
    ∧ ∀ w, (∀ r ∈ rs, r.params = w) → aggregate_fit rs = w := by
  have hagg : aggregate_fit rs = aggregate (rs.map fun r => (r.params, r.numExamples)) := by
    rw [aggregate_fit, okFitResults_of_all_ok rs hok]
  have hsh' : ∀ r ∈ rs.map fun r => (r.params, r.numExamples),
      ∀ u ∈ rs.map fun r => (r.params, r.numExamples), shape r.1 = shape u.1 := by
    intro r hr u hu
    obtain ⟨a, ha, rfl⟩ := List.mem_map.1 hr
    obtain ⟨b, hb, rfl⟩ := List.mem_map.1 hu
    exact hsh a ha b hb
  have hentry : ∀ k j, entry (aggregate_fit rs) k j
      = (rs.map fun r => (r.numExamples : ℚ) * entry r.params k j).sum
          / (((rs.map fun r => r.numExamples).sum : ℕ) : ℚ) := by
    intro k j
    rw [hagg, entry_aggregate _ hsh' k j, List.map_map, List.map_map]
    rfl
  refine ⟨hentry, ?_⟩
  intro w hw
  have hN : (((rs.map fun r => r.numExamples).sum : ℕ) : ℚ) ≠ 0 :=
    Nat.cast_ne_zero.mpr (Nat.pos_iff_ne_zero.mp hpos)
  have hentry_w : ∀ k j, entry (aggregate_fit rs) k j = entry w k j := by
    intro k j
    rw [hentry k j,
      show (rs.map fun r => (r.numExamples : ℚ) * entry r.params k j)
          = rs.map fun r => (r.numExamples : ℚ) * entry w k j from
        List.map_congr_left fun r hr => by rw [hw r hr],
      List.sum_map_mul_right,
      show (rs.map fun r => ((r.numExamples : ℕ) : ℚ)).sum
          = (((rs.map fun r => r.numExamples).sum : ℕ) : ℚ) from by
        rw [Nat.cast_list_sum, List.map_map]
        rfl,
      mul_div_cancel_left₀ _ hN]
  have hshape : shape (aggregate_fit rs) = shape w := by
    cases rs with
    | nil => exact absurd rfl hne
    | cons r0 rest =>
      have hmem0 : r0 ∈ r0 :: rest := List.mem_cons_self _ _
      rw [hagg]
      simp only [List.map_cons]
      rw [shape_aggregate r0.params r0.numExamples
        (rest.map fun r => (r.params, r.numExamples)) ?_]
      · rw [hw r0 hmem0]
      · intro r hr
        exact hsh' r hr (r0.params, r0.numExamples)
          (List.mem_map.2 ⟨r0, hmem0, rfl⟩)
  exact params_ext _ _ hshape hentry_w

/-- Witness for C1: the theorem applied to a concrete two-client input. -/
theorem aggregate_fit_weighted_average_witness :
    (∀ r ∈ rsW, r.statusOk = true) ∧ rsW ≠ [] ∧
    (∀ r ∈ rsW, ∀ u ∈ rsW, shape r.params = shape u.params) ∧
    0 < (rsW.map fun r => r.numExamples).sum ∧
    ∀ k j, entry (aggregate_fit rsW) k j
        = (rsW.map fun r => (r.numExamples : ℚ) * entry r.params k j).sum
            / (((rsW.map fun r => r.numExamples).sum : ℕ) : ℚ) :=
  ⟨by decide, by decide, by decide, by decide,
    (aggregate_fit_weighted_average rsW (by decide) (by decide) (by decide)
      (by decide)).1⟩

theorem aggregate_perm (rs rt : List (Params × ℕ)) (hperm : List.Perm rs rt)
    (hsh : ∀ r ∈ rs, ∀ u ∈ rs, shape r.1 = shape u.1) :
    aggregate rs = aggregate rt := by
  cases rs with
  | nil => rw [hperm.symm.eq_nil]
  | cons r0 rest =>
    cases rt with
    | nil => exact absurd hperm.eq_nil (List.cons_ne_nil _ _)
    | cons t0 trest =>
      have hsh_t : ∀ r ∈ t0 :: trest, ∀ u ∈ t0 :: trest, shape r.1 = shape u.1 :=
        fun r hr u hu => hsh r (hperm.mem_iff.2 hr) u (hperm.mem_iff.2 hu)
      obtain ⟨w₀, n₀⟩ := r0
      obtain ⟨v₀, m₀⟩ := t0
      have hw : shape v₀ = shape w₀ :=
        hsh (v₀, m₀) (hperm.mem_iff.2 (List.mem_cons_self _ _)) (w₀, n₀)
          (List.mem_cons_self _ _)
      apply params_ext
      · rw [shape_aggregate w₀ n₀ rest
            (fun r hr => hsh r hr (w₀, n₀) (List.mem_cons_self _ _)),
          shape_aggregate v₀ m₀ trest
            (fun r hr => hsh_t r hr (v₀, m₀) (List.mem_cons_self _ _))]
        exact hw.symm
      · intro k j
        rw [entry_aggregate _ hsh k j, entry_aggregate _ hsh_t k j,
          (hperm.map fun r => (r.2 : ℚ) * entry r.1 k j).sum_eq,
          (hperm.map Prod.snd).sum_eq]

/-- Claim C5: `aggregate_fit` is invariant under any permutation of the
client results — the sample-count-weighted aggregation does not depend on
arrival order. -/
theorem aggregate_fit_order_independent (rs rt : List ClientResult)
    (hperm : List.Perm rs rt)
    (hsh : ∀ r ∈ rs, ∀ u ∈ rs, shape r.params = shape u.params) :
    aggregate_fit rs = aggregate_fit rt := by
  unfold aggregate_fit okFitResults
  apply aggregate_perm
  · exact (hperm.filter _).map _
  · intro r hr u hu
    obtain ⟨a, ha, rfl⟩ := List.mem_map.1 hr
    obtain ⟨b, hb, rfl⟩ := List.mem_map.1 hu
    exact hsh a (List.mem_of_mem_filter ha) b (List.mem_of_mem_filter hb)

/-- Witness for C5: aggregating two concrete results in both orders. -/
theorem aggregate_fit_order_independent_witness :
    List.Perm rsW rsWswap ∧
    (∀ r ∈ rsW, ∀ u ∈ rsW, shape r.params = shape u.params) ∧
    aggregate_fit rsW = aggregate_fit rsWswap :=
  ⟨by decide, by decide,
    aggregate_fit_order_independent rsW rsWswap (by decide) (by decide)⟩

/-- Claim C4: a round whose OK-result count is strictly below the configured
minimum fails with `InsufficientResults`, and the GlobalModel after the round
equals the GlobalModel before it — no update is committed on failure. -/
theorem round_insufficient_results_keeps_model (minFit : ℕ) (g : Params)
    (rs : List ClientResult) (h : okCount rs < minFit) :
    runFitRound minFit rs = Except.error RoundError.insufficientResults ∧
    roundGlobalModel minFit g rs = g := by
  have hrun : runFitRound minFit rs = Except.error RoundError.insufficientResults := by
    rw [runFitRound, if_pos h]
  refine ⟨hrun, ?_⟩
  unfold roundGlobalModel
  rw [hrun]

/-- Witness for C4: three collected results of which only two are OK, with a
configured minimum of three. -/
theorem round_insufficient_results_keeps_model_witness :
    okCount rsC4 < 3 ∧
    runFitRound 3 rsC4 = Except.error RoundError.insufficientResults ∧
    roundGlobalModel 3 [[9]] rsC4 = [[9]] :=
  ⟨by decide,
    (round_insufficient_results_keeps_model 3 [[9]] rsC4 (by decide)).1,
    (round_insufficient_results_keeps_model 3 [[9]] rsC4 (by decide)).2⟩

/-- Claim C6: if the weighted-averaging computation or the spreadout
computation produces a non-finite value (NaN/Inf), aggregation raises
`AggregationNumericalError` and no such value is written into the
GlobalModel. -/
theorem aggregation_numerical_error_raised (nu eta lam : ℚ) (g : FParams)
    (gT : List (List FVal)) (rs : List (FParams × ℕ)) (T : List (List FVal))
    (h : (∃ v ∈ faggregate rs, ∃ x ∈ v, x.isFinite = false) ∨
      ∃ v ∈ fspreadoutStep nu eta lam T, ∃ x ∈ v, x.isFinite = false) :
    checkedAggregateFit nu eta lam rs T
        = Except.error AggError.aggregationNumericalError ∧
    checkedGlobalModelFit nu eta lam g gT rs T = (g, gT) := by
  have hfalse : ∀ p : FParams, (∃ v ∈ p, ∃ x ∈ v, x.isFinite = false) →
      ¬ allFinite p = true := by
    intro p hp hcontra
    rw [allFinite, List.all_eq_true] at hcontra
    obtain ⟨v, hv, x, hx, hfin⟩ := hp
    have h2 := hcontra v hv
    rw [List.all_eq_true] at h2
    have h3 := h2 x hx
    rw [hfin] at h3
    exact absurd h3 (by simp)
  have hcond : ¬ (allFinite (faggregate rs)
      && allFinite (fspreadoutStep nu eta lam T)) = true := by
    intro hcontra
    rw [Bool.and_eq_true] at hcontra
    rcases h with hl | hr
    · exact hfalse _ hl hcontra.1
    · exact hfalse _ hr hcontra.2
  have hrun : checkedAggregateFit nu eta lam rs T
      = Except.error AggError.aggregationNumericalError := by
    rw [checkedAggregateFit, if_neg hcond]
  refine ⟨hrun, ?_⟩
  unfold checkedGlobalModelFit
  rw [hrun]

theorem fspreadoutStep_TW :
    fspreadoutStep (1 / 2) 1 1 TW = [[FVal.nan, FVal.nan], [FVal.nan, FVal.nan]] := by
  norm_num [fspreadoutStep, TW, fdotp, fGtNu, fMul, fAdd, fSub, fNeg, fvSub,
    fvScale, fnormalizeRow, fSqrt, fDiv, List.range_succ, Rat.sqrt]

theorem TW_nonfinite :
    ∃ v ∈ fspreadoutStep (1 / 2) 1 1 TW, ∃ x ∈ v, x.isFinite = false := by
  refine ⟨[FVal.nan, FVal.nan], ?_, FVal.nan, List.mem_cons_self _ _, rfl⟩
  rw [fspreadoutStep_TW]
  exact List.mem_cons_self _ _

/-- Witness for C6: a finite weighted average combined with an embedding
table whose two identical unit rows cancel under the spreadout step, so
renormalization produces NaN (0/0) — the spreadout half of the claim's
antecedent. -/
theorem aggregation_numerical_error_raised_witness :
    ((∃ v ∈ faggregate frsFinW, ∃ x ∈ v, x.isFinite = false) ∨
      ∃ v ∈ fspreadoutStep (1 / 2) 1 1 TW, ∃ x ∈ v, x.isFinite = false) ∧
    checkedAggregateFit (1 / 2) 1 1 frsFinW TW
        = Except.error AggError.aggregationNumericalError ∧
    checkedGlobalModelFit (1 / 2) 1 1 [[FVal.fin 7]] [[FVal.fin 9]] frsFinW TW
        = ([[FVal.fin 7]], [[FVal.fin 9]]) :=
  ⟨Or.inr TW_nonfinite,
    (aggregation_numerical_error_raised (1 / 2) 1 1 [[FVal.fin 7]]
      [[FVal.fin 9]] frsFinW TW (Or.inr TW_nonfinite)).1,
    (aggregation_numerical_error_raised (1 / 2) 1 1 [[FVal.fin 7]]
      [[FVal.fin 9]] frsFinW TW (Or.inr TW_nonfinite)).2⟩

/-- Claim C2: if every pairwise similarity between distinct identity rows is
already at most `nu`, the spreadout step leaves the EmbeddingTable
unchanged. -/
theorem spreadout_noop {n d : ℕ} (nu eta lam : ℝ) (E : Fin n → Fin d → ℝ)
    (h : ∀ i j : Fin n, i ≠ j → dotp (E i) (E j) ≤ nu) :
    spreadoutStep nu eta lam E = E := by
  funext i
  unfold spreadoutStep
  have hno : ¬ ∃ j, overSim nu E i j := by
    rintro ⟨j, hji, hgt⟩
    exact absurd hgt (not_lt.2 (h i j (Ne.symm hji)))
  rw [if_neg hno]

/-- Witness for C2: an orthonormal two-row table with `nu = 0.9`. -/
theorem spreadout_noop_witness :
    (∀ i j : Fin 2, i ≠ j → dotp (Eid i) (Eid j) ≤ (9 / 10 : ℝ)) ∧
    spreadoutStep (9 / 10) (1 / 100) 10 Eid = Eid := by
  have h : ∀ i j : Fin 2, i ≠ j → dotp (Eid i) (Eid j) ≤ (9 / 10 : ℝ) := by
    intro i j hij
    fin_cases i <;> fin_cases j <;>
      simp_all [Eid, dotp, Fin.sum_univ_two] <;> norm_num
  exact ⟨h, spreadout_noop _ _ _ _ h⟩

theorem dotp_comm {d : ℕ} (u v : Fin d → ℝ) : dotp u v = dotp v u := by
  unfold dotp
  exact Finset.sum_congr rfl fun i _ => mul_comm _ _

theorem dotp_normalize {d : ℕ} (u v : Fin d → ℝ) :
    dotp (normalizeRow u) (normalizeRow v) = dotp u v / (nrm u * nrm v) := by
  unfold normalizeRow dotp
  rw [Finset.sum_congr rfl fun i _ =>
    (div_mul_div_comm (u i) (nrm u) (v i) (nrm v) :
      (fun k => u k / nrm u) i * (fun k => v k / nrm v) i = u i * v i / (nrm u * nrm v)),
    ← Finset.sum_div]

theorem dotp_sub_mul_sub {d : ℕ} (u v : Fin d → ℝ) (a : ℝ) :
    dotp (fun k => u k - a * v k) (fun k => v k - a * u k)
      = dotp u v - a * dotp u u - a * dotp v v + a ^ 2 * dotp u v := by
  unfold dotp
  rw [Finset.mul_sum, Finset.mul_sum, Finset.mul_sum,
    ← Finset.sum_sub_distrib, ← Finset.sum_sub_distrib, ← Finset.sum_add_distrib]
  exact Finset.sum_congr rfl fun i _ => by ring

theorem dotp_sub_self {d : ℕ} (u v : Fin d → ℝ) (a : ℝ) :
    dotp (fun k => u k - a * v k) (fun k => u k - a * v k)
      = dotp u u - 2 * a * dotp u v + a ^ 2 * dotp v v := by
  unfold dotp
  rw [Finset.mul_sum, Finset.mul_sum, ← Finset.sum_sub_distrib,
    ← Finset.sum_add_distrib]
  exact Finset.sum_congr rfl fun i _ => by ring

open Classical in
theorem spreadGrad_apply (nu eta lam : ℝ) {n d : ℕ} (E : Fin n → Fin d → ℝ)
    (i : Fin n) (k : Fin d) :
    spreadGrad nu eta lam E i k
      = ∑ j, if overSim nu E i j then eta * lam * dotp (E i) (E j) * E j k else 0 :=
  rfl

open Classical in
theorem spreadoutStep_isolated_row {n d : ℕ} (nu eta lam : ℝ)
    (E : Fin n → Fin d → ℝ) (i j : Fin n) (hji : j ≠ i)
    (hgt : nu < dotp (E i) (E j))
    (hiso : ∀ m : Fin n, m ≠ i → m ≠ j → dotp (E i) (E m) ≤ nu) :
    spreadoutStep nu eta lam E i
      = normalizeRow (fun k => E i k - eta * lam * dotp (E i) (E j) * E j k) := by
  unfold spreadoutStep
  rw [if_pos ⟨j, hji, hgt⟩]
  have hrow : (fun k => E i k - spreadGrad nu eta lam E i k)
      = fun k => E i k - eta * lam * dotp (E i) (E j) * E j k := by
    funext k
    have hsum : (∑ m, if overSim nu E i m
          then eta * lam * dotp (E i) (E m) * E m k else 0)
        = eta * lam * dotp (E i) (E j) * E j k := by
      rw [Finset.sum_eq_single j]
      · rw [if_pos ⟨hji, hgt⟩]
      · intro m _ hm
        rw [if_neg]
        rintro ⟨hmi, hgt'⟩
        exact absurd hgt' (not_lt.2 (hiso m hmi hm))
      · intro hj
        exact absurd (Finset.mem_univ j) hj
    rw [spreadGrad_apply, hsum]
  rw [hrow]

/-- Claim C3 (amended): for every pair of distinct unit-norm identity rows
of an EmbeddingTable (of any size) that are each other's only over-similar
partners, with pair similarity strictly between `nu ≥ 0` and 1, one
spreadout step strictly decreases that pair's similarity, for every
`eta > 0` and `lam > 0`. -/
theorem spreadout_pair_similarity_decreases {n d : ℕ} (nu eta lam : ℝ)
    (E : Fin n → Fin d → ℝ) (i j : Fin n) (hij : i ≠ j)
    (hu : dotp (E i) (E i) = 1) (hv : dotp (E j) (E j) = 1)
    (hnu : 0 ≤ nu) (hgt : nu < dotp (E i) (E j)) (hlt : dotp (E i) (E j) < 1)
    (hiso : ∀ m : Fin n, m ≠ i → m ≠ j →
      dotp (E i) (E m) ≤ nu ∧ dotp (E j) (E m) ≤ nu)
    (heta : 0 < eta) (hlam : 0 < lam) :
    dotp (spreadoutStep nu eta lam E i) (spreadoutStep nu eta lam E j)
      < dotp (E i) (E j) := by
  have hgt' : nu < dotp (E j) (E i) := by rw [dotp_comm]; exact hgt
  have h0 : spreadoutStep nu eta lam E i
      = normalizeRow (fun k => E i k - eta * lam * dotp (E i) (E j) * E j k) :=
    spreadoutStep_isolated_row nu eta lam E i j (Ne.symm hij) hgt
      fun m hmi hmj => (hiso m hmi hmj).1
  have h1 : spreadoutStep nu eta lam E j
      = normalizeRow (fun k => E j k - eta * lam * dotp (E j) (E i) * E i k) :=
    spreadoutStep_isolated_row nu eta lam E j i hij hgt'
      fun m hmj hmi => (hiso m hmi hmj).2
  rw [dotp_comm (E j) (E i)] at h1
  set s := dotp (E i) (E j) with hs
  set a := eta * lam * s with ha
  have hs0 : 0 < s := lt_of_le_of_lt hnu hgt
  have ha0 : 0 < a := mul_pos (mul_pos heta hlam) hs0
  have hD : dotp (fun k => E i k - a * E j k) (fun k => E i k - a * E j k)
      = 1 - 2 * a * s + a ^ 2 := by
    rw [dotp_sub_self, hu, hv]
    ring
  have hD' : dotp (fun k => E j k - a * E i k) (fun k => E j k - a * E i k)
      = 1 - 2 * a * s + a ^ 2 := by
    rw [dotp_sub_self, hu, hv, dotp_comm (E j) (E i), ← hs]
    ring
  have hDpos : (0 : ℝ) < 1 - 2 * a * s + a ^ 2 := by
    nlinarith [sq_nonneg (1 - a), mul_pos ha0 (sub_pos.2 hlt)]
  have hN : dotp (fun k => E i k - a * E j k) (fun k => E j k - a * E i k)
      = s - 2 * a + a ^ 2 * s := by
    rw [dotp_sub_mul_sub, hu, hv]
    ring
  rw [h0, h1, dotp_normalize]
  unfold nrm
  rw [hN, hD, hD', Real.mul_self_sqrt hDpos.le, div_lt_iff₀ hDpos]
  have hsq : s ^ 2 < 1 := by nlinarith
  nlinarith [mul_pos ha0 (sub_pos.2 hsq)]

/-- Witness for C3 (amended) at a concrete table: two unit rows with
similarity 3/5 and no further rows, threshold 1/2, `eta = lam = 1`. -/
theorem spreadout_pair_similarity_decreases_witness :
    (0 : Fin 2) ≠ 1 ∧
    dotp (Ew 0) (Ew 0) = 1 ∧ dotp (Ew 1) (Ew 1) = 1 ∧
    (0 : ℝ) ≤ 1 / 2 ∧ (1 / 2 : ℝ) < dotp (Ew 0) (Ew 1) ∧
    dotp (Ew 0) (Ew 1) < 1 ∧
    (∀ m : Fin 2, m ≠ 0 → m ≠ 1 →
      dotp (Ew 0) (Ew m) ≤ 1 / 2 ∧ dotp (Ew 1) (Ew m) ≤ 1 / 2) ∧
    (0 : ℝ) < 1 ∧
    dotp (spreadoutStep (1 / 2) 1 1 Ew 0) (spreadoutStep (1 / 2) 1 1 Ew 1)
      < dotp (Ew 0) (Ew 1) := by
  have h1 : dotp (Ew 0) (Ew 0) = 1 := by
    simp [Ew, dotp, Fin.sum_univ_two]
  have h2 : dotp (Ew 1) (Ew 1) = 1 := by
    simp [Ew, dotp, Fin.sum_univ_two]
    norm_num
  have h3 : dotp (Ew 0) (Ew 1) = 3 / 5 := by
    simp [Ew, dotp, Fin.sum_univ_two]
  have hiso : ∀ m : Fin 2, m ≠ 0 → m ≠ 1 →
      dotp (Ew 0) (Ew m) ≤ 1 / 2 ∧ dotp (Ew 1) (Ew m) ≤ 1 / 2 := by
    intro m hm0 hm1
    fin_cases m <;> simp_all
  exact ⟨by decide, h1, h2, by norm_num, by rw [h3]; norm_num,
    by rw [h3]; norm_num, hiso, by norm_num,
    spreadout_pair_similarity_decreases (1 / 2) 1 1 Ew 0 1 (by decide) h1 h2
      (by norm_num) (by rw [h3]; norm_num) (by rw [h3]; norm_num) hiso
      (by norm_num) (by norm_num)⟩

/-- Counterexample to C3 as stated, in both of the ways the claim fails.
(i) The two distinct identity rows of `Ecx` hold the same unit vector: their
similarity 1 exceeds `nu = 1/2`, yet one spreadout step with `eta = 3`,
`lam = 1` leaves the similarity at 1.  (ii) In the three-row table `E3`,
rows 0 and 1 are distinct unit rows with similarity 3/5 strictly between
`nu = 1/2` and 1, yet — because row 2 is a further over-similar partner of
row 0 — one spreadout step with `eta = 3`, `lam = 1` does not decrease their
similarity (it rises to 3/√13). -/
theorem spreadout_no_decrease_counterexample :
    ((1 / 2 : ℝ) < dotp (Ecx 0) (Ecx 1) ∧ (0 : ℝ) < 3 ∧ (0 : ℝ) < 1 ∧
      ¬ dotp (spreadoutStep (1 / 2) 3 1 Ecx 0) (spreadoutStep (1 / 2) 3 1 Ecx 1)
          < dotp (Ecx 0) (Ecx 1)) ∧
    (dotp (E3 0) (E3 0) = 1 ∧ dotp (E3 1) (E3 1) = 1 ∧ E3 0 ≠ E3 1 ∧
      (1 / 2 : ℝ) < dotp (E3 0) (E3 1) ∧ dotp (E3 0) (E3 1) < 1 ∧
      ¬ dotp (spreadoutStep (1 / 2) 3 1 E3 0) (spreadoutStep (1 / 2) 3 1 E3 1)
          < dotp (E3 0) (E3 1)) := by
  constructor
  · have hs : dotp (Ecx 0) (Ecx 1) = 1 := by
      simp [Ecx, dotp, Fin.sum_univ_two]
    have h00 : dotp (Ecx 0) (Ecx 0) = 1 := by
      simp [Ecx, dotp, Fin.sum_univ_two]
    have h11 : dotp (Ecx 1) (Ecx 1) = 1 := by
      simp [Ecx, dotp, Fin.sum_univ_two]
    have hgt : (1 / 2 : ℝ) < dotp (Ecx 0) (Ecx 1) := by
      rw [hs]
      norm_num
    have hgt' : (1 / 2 : ℝ) < dotp (Ecx 1) (Ecx 0) := by
      rw [dotp_comm]
      exact hgt
    have h0 : spreadoutStep (1 / 2) 3 1 Ecx 0
        = normalizeRow (fun k => Ecx 0 k - 3 * 1 * dotp (Ecx 0) (Ecx 1) * Ecx 1 k) :=
      spreadoutStep_isolated_row (1 / 2) 3 1 Ecx 0 1 (by decide) hgt
        (by intro m hm0 hm1; fin_cases m <;> simp_all)
    have h1 : spreadoutStep (1 / 2) 3 1 Ecx 1
        = normalizeRow (fun k => Ecx 1 k - 3 * 1 * dotp (Ecx 1) (Ecx 0) * Ecx 0 k) :=
      spreadoutStep_isolated_row (1 / 2) 3 1 Ecx 1 0 (by decide) hgt'
        (by intro m hm1 hm0; fin_cases m <;> simp_all)
    rw [dotp_comm (Ecx 1) (Ecx 0)] at h1
    refine ⟨hgt, by norm_num, by norm_num, ?_⟩
    rw [h0, h1, dotp_normalize]
    unfold nrm
    rw [dotp_sub_mul_sub, dotp_sub_self, dotp_sub_self, dotp_comm (Ecx 1) (Ecx 0),
      hs, h00, h11]
    norm_num
  · have h01 : dotp (E3 0) (E3 1) = 3 / 5 := by
      norm_num [E3, dotp, Fin.sum_univ_two]
    have h02 : dotp (E3 0) (E3 2) = 4 / 5 := by
      norm_num [E3, dotp, Fin.sum_univ_two]
    have h10 : dotp (E3 1) (E3 0) = 3 / 5 := by
      norm_num [E3, dotp, Fin.sum_univ_two]
    have h00 : dotp (E3 0) (E3 0) = 1 := by
      norm_num [E3, dotp, Fin.sum_univ_two]
    have h11 : dotp (E3 1) (E3 1) = 1 := by
      norm_num [E3, dotp, Fin.sum_univ_two]
    have hne : E3 0 ≠ E3 1 := by
      intro h
      have h0 := congrFun h 0
      rw [E3] at h0
      norm_num at h0
    have hstep1 : spreadoutStep (1 / 2) 3 1 E3 1
        = normalizeRow (fun k => E3 1 k - 3 * 1 * dotp (E3 1) (E3 0) * E3 0 k) :=
      spreadoutStep_isolated_row (1 / 2) 3 1 E3 1 0 (by decide)
        (by rw [h10]; norm_num)
        (by
          intro m hm1 hm0
          fin_cases m
          · simp_all
          · simp_all
          · norm_num [E3, dotp, Fin.sum_univ_two])
    have hstep0 : spreadoutStep (1 / 2) 3 1 E3 0
        = normalizeRow (fun k => E3 0 k - (3 * 1 * dotp (E3 0) (E3 1) * E3 1 k
            + 3 * 1 * dotp (E3 0) (E3 2) * E3 2 k)) := by
      unfold spreadoutStep
      rw [if_pos ⟨1, by decide, by rw [h01]; norm_num⟩]
      have hrow : (fun k => E3 0 k - spreadGrad (1 / 2) 3 1 E3 0 k)
          = fun k => E3 0 k - (3 * 1 * dotp (E3 0) (E3 1) * E3 1 k
              + 3 * 1 * dotp (E3 0) (E3 2) * E3 2 k) := by
        funext k
        rw [spreadGrad_apply, Fin.sum_univ_three, if_neg (fun h => h.1 rfl),
          if_pos ⟨by decide, by rw [h01]; norm_num⟩,
          if_pos ⟨by decide, by rw [h02]; norm_num⟩, zero_add]
      rw [hrow]
    have hx : (fun k => E3 0 k - (3 * 1 * dotp (E3 0) (E3 1) * E3 1 k
        + 3 * 1 * dotp (E3 0) (E3 2) * E3 2 k)) = ![(-6 / 5 : ℝ), -8 / 5] := by
      funext k
      rw [h01, h02]
      fin_cases k <;> norm_num [E3]
    have hy : (fun k => E3 1 k - 3 * 1 * dotp (E3 1) (E3 0) * E3 0 k)
        = ![(-2 / 25 : ℝ), -36 / 25] := by
      funext k
      rw [h10]
      fin_cases k <;> norm_num [E3]
    refine ⟨h00, h11, hne, by rw [h01]; norm_num, by rw [h01]; norm_num, ?_⟩
    rw [hstep0, hstep1, hx, hy, dotp_normalize]
    unfold nrm
    have hdxy : dotp ![(-6 / 5 : ℝ), -8 / 5] ![(-2 / 25 : ℝ), -36 / 25]
        = 12 / 5 := by
      norm_num [dotp, Fin.sum_univ_two]
    have hdxx : dotp ![(-6 / 5 : ℝ), -8 / 5] ![(-6 / 5 : ℝ), -8 / 5] = 4 := by
      norm_num [dotp, Fin.sum_univ_two]
    have hdyy : dotp ![(-2 / 25 : ℝ), -36 / 25] ![(-2 / 25 : ℝ), -36 / 25]
        = 52 / 25 := by
      norm_num [dotp, Fin.sum_univ_two]
    rw [hdxy, hdxx, hdyy, h01]
    have h4 : Real.sqrt 4 = 2 := by
      rw [show (4 : ℝ) = 2 ^ 2 by norm_num, Real.sqrt_sq (by norm_num : (0 : ℝ) ≤ 2)]
    have hsqrt : Real.sqrt (52 / 25) ≤ 2 :=
      calc Real.sqrt (52 / 25) ≤ Real.sqrt 4 := Real.sqrt_le_sqrt (by norm_num)
        _ = 2 := h4
    rw [h4, not_lt, le_div_iff₀ (by positivity)]
    nlinarith [Real.sqrt_nonneg (52 / 25 : ℝ)]

/-- Counterexample to C7's ceiling clause: with 3 clients and
`fraction_fit = 1/2`, the script configures `int(3 × 1/2) = 1` as the minimum
fit-client count, while `ceil(3 × 1/2) = 2`. -/
theorem min_fit_clients_truncates :
    min_fit_clients 3 (1 / 2) = 1 ∧ ⌈(3 : ℚ) * (1 / 2)⌉ = 2 ∧
    min_fit_clients 3 (1 / 2) ≠ ⌈(3 : ℚ) * (1 / 2)⌉ := by
  have h1 : min_fit_clients 3 (1 / 2) = 1 := by
    norm_num [min_fit_clients, ratTrunc]
  have h2 : ⌈(3 : ℚ) * (1 / 2)⌉ = 2 := by
    norm_num [Int.ceil_eq_iff]
  exact ⟨h1, h2, by rw [h1, h2]; decide⟩

/-- Claim C7 (amended): for a duplicate-free population with
`0 ≤ fraction ≤ 1` and an attainable minimum, the Client Selector returns a
duplicate-free subset with
`max(min_clients, ceil(fraction × population)) ≤ |subset| ≤ population`;
the minimum fit-client count the script configures is
`int(num_clients × fraction_fit)` — the floor (truncation) of the product,
not its ceiling. -/
theorem selector_bounds (population : List ℕ) (fraction : ℚ) (minClients : ℕ)
    (hnodup : population.Nodup) (hf0 : 0 ≤ fraction) (hf1 : fraction ≤ 1)
    (hmin : minClients ≤ population.length) :
    (∃ sel, selectClients population fraction minClients = Except.ok sel ∧
      sel.Nodup ∧
      max minClients (⌈fraction * (population.length : ℚ)⌉.toNat) ≤ sel.length ∧
      sel.length ≤ population.length) ∧
    min_fit_clients (population.length : ℤ) fraction
      = ⌊(population.length : ℚ) * fraction⌋ := by
  constructor
  · have hc : ¬ population.length < minClients := not_lt.2 hmin
    have hk : (⌈fraction * (population.length : ℚ)⌉.toNat) ≤ population.length := by
      rw [Int.toNat_le]
      calc ⌈fraction * (population.length : ℚ)⌉ ≤ ⌈((population.length : ℕ) : ℚ)⌉ := by
            apply Int.ceil_mono
            calc fraction * (population.length : ℚ)
                ≤ 1 * (population.length : ℚ) :=
                  mul_le_mul_of_nonneg_right hf1 (by positivity)
              _ = (population.length : ℚ) := one_mul _
        _ = (population.length : ℤ) := Int.ceil_natCast _
    have hmax : max minClients (⌈fraction * (population.length : ℚ)⌉.toNat)
        ≤ population.length := max_le hmin hk
    refine ⟨population.take
        (max minClients (⌈fraction * (population.length : ℚ)⌉.toNat)),
      ?_, ?_, ?_, ?_⟩
    · rw [selectClients, if_neg hc]
    · exact (List.take_sublist _ _).nodup hnodup
    · rw [List.length_take]
      omega
    · rw [List.length_take]
      omega
  · rw [min_fit_clients, ratTrunc,
      if_pos (mul_nonneg (by positivity) hf0 :
        (0 : ℚ) ≤ ((population.length : ℤ) : ℚ) * fraction)]
    norm_cast

/-- Witness for C7 (amended): population of four ids, fraction 1/2,
minimum 1. -/
theorem selector_bounds_witness :
    ([0, 1, 2, 3] : List ℕ).Nodup ∧ (0 : ℚ) ≤ 1 / 2 ∧ (1 / 2 : ℚ) ≤ 1 ∧
    1 ≤ ([0, 1, 2, 3] : List ℕ).length ∧
    ((∃ sel, selectClients [0, 1, 2, 3] (1 / 2) 1 = Except.ok sel ∧
        sel.Nodup ∧
        max 1 (⌈(1 / 2 : ℚ) * (([0, 1, 2, 3] : List ℕ).length : ℚ)⌉.toNat)
          ≤ sel.length ∧
        sel.length ≤ ([0, 1, 2, 3] : List ℕ).length) ∧
      min_fit_clients (([0, 1, 2, 3] : List ℕ).length : ℤ) (1 / 2)
        = ⌊(([0, 1, 2, 3] : List ℕ).length : ℚ) * (1 / 2)⌋) :=
  ⟨by decide, by norm_num, by norm_num, by decide,
    selector_bounds [0, 1, 2, 3] (1 / 2) 1 (by decide) (by norm_num)
      (by norm_num) (by decide)⟩

/-- Counterexample to C8 as stated: two runs whose parsed configurations
differ (in every CLI field) receive identical nu/eta/lam from the script, and
the parser exposes no `--nu`, `--eta` or `--lam` option — these strategy
hyperparameters are not supplied by the CLI configuration surface. -/
theorem strategy_hyperparameters_not_from_cli :
    argsA ≠ argsB ∧
    (strategyInit argsA).nu = (strategyInit argsB).nu ∧
    (strategyInit argsA).eta = (strategyInit argsB).eta ∧
    (strategyInit argsA).lam = (strategyInit argsB).lam ∧
    "--nu" ∉ parserArgNames ∧ "--eta" ∉ parserArgNames ∧
    "--lam" ∉ parserArgNames := by
  refine ⟨?_, rfl, rfl, rfl, ?_, ?_, ?_⟩ <;> decide

/-- Claim C8 (amended): the strategy hyperparameters nu, eta, lam are the
constants 0.9, 0.01 and 10 hardcoded in the script — fixed for every run and
independent of the parsed CLI configuration. -/
theorem strategy_hyperparameters_hardcoded (a : Args) :
    (strategyInit a).nu = 9 / 10 ∧ (strategyInit a).eta = 1 / 100 ∧
    (strategyInit a).lam = 10 :=
  ⟨rfl, rfl, rfl⟩

/-- Claim C9: for every round number, `fit_config` returns exactly the five
scalar hyperparameters {local_epochs, batch_size, lr, weight_decay,
criterion_name} taken from the static experiment configuration, and the
returned config is the same for all round numbers. -/
theorem fit_config_constant (a : Args) (r r' : ℕ) :
    fit_config a r = fit_config a r' ∧
    fit_config a r
      = [("local_epochs", PyScalar.int a.local_epochs),
         ("batch_size", PyScalar.int a.batch_size),
         ("lr", PyScalar.float a.lr),
         ("weight_decay", PyScalar.float a.weight_decay),
         ("criterion_name", PyScalar.str a.criterion)] :=
  ⟨rfl, rfl⟩

/-- Claim C10: `client_fn` builds every client with the literal string
`"None"` as `pretrained` and `out_dims = 1`, regardless of the `--pretrained`
argument and the dataset's configured `out_dims`; only the server-side
`load_arcface_model` call uses `args.pretrained` and the dataset's full
`out_dims`. -/
theorem client_config_fixed (σ : Type) (a : Args) (dc : DatasetConfig σ)
    (cid : String) :
    (client_fn a dc cid).config.pretrained = "None" ∧
    (client_fn a dc cid).config.out_dims = 1 ∧
    (load_arcface_model_call a dc).pretrained = a.pretrained ∧
    (load_arcface_model_call a dc).out_dims = dc.out_dims :=
  ⟨rfl, rfl, rfl, rfl⟩

end FedAwSVerification
